import Mathlib

set_option maxRecDepth 100000

/-! Shallow embedding of the grid-phase and structural-anomaly analysis engine of
`scripts/analyze-track-v2.py`.  Python floats are modelled as rationals, the
per-beat dictionaries as structures, and the in-place mutation of the quarter
table by the bridge detector as explicit state passing.  Display-only rounding
of output fields (`round(x, 2)` on times, `round(x, 4)` on reported sums) is
omitted, except where a rounded value feeds back into a later comparison: the
strong-row tact table stores `round(_, 4)` sums and those rounded values are the
ones compared against thresholds in `find_song_start` / `find_song_start_perc`,
so rounding is kept there.  Time stamps are presentation data that no analysed
property depends on, so beat records keep only the numeric features. -/

/-- Python `round(x, 4)`: round to four decimal places, ties to even
(Python's banker rounding), modelled exactly on rationals. -/
def round4 (x : ℚ) : ℚ :=
  let y := x * 10000
  let f := ⌊y⌋
  let r := y - (f : ℚ)
  let n : ℤ := if r < 1/2 then f else if 1/2 < r then f + 1 else if f % 2 = 0 then f else f + 1
  (n : ℚ) / 10000

/-- One beat record as produced by `compute_beat_data`: RMS band energy,
A-weighted perceptual energy (dB) and the madmom downbeat score. -/
structure Beat where
  energy : ℚ
  perceptual_energy : ℚ
  madmom_score : ℚ
deriving DecidableEq, Inhabited

/-- The configuration dictionary of `load_config`, with its default values. -/
structure AnalysisConfig where
  energy_threshold_reduction : ℚ := 3/10
  initial_quarters_count : ℕ := 8
  bridge_dominance_threshold : ℚ := 3/100
  indicator_window : ℕ := 4
  popsa_peak_threshold : ℚ := 7/10
  perc_bridge_threshold : ℚ := 1/20
  perc_start_threshold : ℚ := 1/5
deriving DecidableEq, Inhabited

/-- The defaults of `load_config` (no config file present). -/
def defaultConfig : AnalysisConfig := {}

/-- The `'1-4'` / `'5-8'` position strings attached to quarters and indicators. -/
inductive RowPos
  | p14
  | p58
deriving DecidableEq, Inhabited

/-- Swap `'1-4' <-> '5-8'`. -/
def flipPos : RowPos → RowPos
  | RowPos.p14 => RowPos.p58
  | RowPos.p58 => RowPos.p14

/-- The `'green'` / `'red'` status strings of `analyze_square` parts. -/
inductive PartStatus
  | green
  | red
deriving DecidableEq, Inhabited

/-- The verdict strings of `analyze_square`. -/
inductive SquareVerdict
  | square_confirmed
  | has_bridges
  | insufficient_data
deriving DecidableEq, Inhabited

/-! `classify_peaks` (Phase 0).  The source reads the madmom activation curve at
the frame of each beat with exactly the lookup that `compute_beat_data` uses for
the per-beat `madmom_score`, so the embedding takes the list of per-beat scores
directly. -/

/-- Mean madmom score of the beats whose index is `pos` modulo 8
(`avg_scores` in `classify_peaks`; an empty residue class scores `0.0`). -/
def avgScores (scores : List ℚ) (pos : ℕ) : ℚ :=
  let l := (scores.enum.filter fun p => decide (p.1 % 8 = pos)).map fun p => p.2
  if l = [] then 0 else l.sum / (l.length : ℚ)

/-- Insert `x` into a descending-sorted list, after every element whose key is
greater than or equal: the insertion step of a stable descending sort. -/
def insDesc (key : ℕ → ℚ) (x : ℕ) : List ℕ → List ℕ
  | [] => [x]
  | y :: ys => if key y < key x then x :: y :: ys else y :: insDesc key x ys

/-- Python `sorted(l, key=key, reverse=True)`: stable sort, descending by key
(elements with equal keys keep their original order). -/
def sortDescStable (key : ℕ → ℚ) (l : List ℕ) : List ℕ :=
  l.foldl (fun acc x => insDesc key x acc) []

/-- Python `max(l, key=key)`: the first element attaining the maximal key. -/
def pickMaxFirst (key : ℕ → ℚ) : List ℕ → ℕ
  | [] => 0
  | c :: cs => cs.foldl (fun best p => if key best < key p then p else best) c

/-- Phase 0 `classify_peaks`: returns `(peak_count, peak1_pos, peak2_pos)` from
the per-beat madmom scores.  `peak1` is the residue of highest mean score, the
provisional `peak2` the second; if `peak2` is not at offset 0 or 1 (mod 8) from
`(peak1 + 4) % 8` it is replaced by the best-scoring residue at those offsets;
the pair is then ordered increasingly and the two mid positions decide
2 peaks (bachata) versus 4 peaks (popsa). -/
def classify_peaks (scores : List ℚ) (cfg : AnalysisConfig) : ℕ × ℕ × ℕ :=
  let avg := avgScores scores
  let sorted := sortDescStable avg (List.range 8)
  let p1 := sorted.getD 0 0
  let p2start := sorted.getD 1 0
  let expected := (p1 + 4) % 8
  let p2 :=
    if 1 < (p2start + 8 - expected) % 8 then
      let candidates := (List.range 8).filter fun p => decide ((p + 8 - expected) % 8 ≤ 1)
      match candidates with
      | [] => p2start
      | _ :: _ => pickMaxFirst avg candidates
    else p2start
  let pa := if p2 < p1 then p2 else p1
  let pb := if p2 < p1 then p1 else p2
  let mid1 := (pa + 2) % 8
  let mid2 := (pb + 2) % 8
  let ref := max (max (avg pa) (avg pb)) (1/1000)
  let peaks :=
    if cfg.popsa_peak_threshold ≤ avg mid1 / ref ∧ cfg.popsa_peak_threshold ≤ avg mid2 / ref
    then 4 else 2
  (peaks, pa, pb)

/-! Strong-row tact table (`build_strong_rows_tact_table`). -/

/-- One row of the strong-row tact table: a 4-beat tact starting at a beat whose
index is `peak1_pos` or `peak2_pos` modulo 8.  `tact_sum` / `tact_avg` are sums
of `perceptual_energy`, stored rounded to 4 decimals as in the source. -/
structure Tact where
  row_position : ℕ
  beat : ℕ
  tact_sum : ℚ
  tact_avg : ℚ
deriving DecidableEq, Inhabited

/-- `build_strong_rows_tact_table`: one tact per strong-row beat `i`
(`i % 8 ∈ {peak1_pos, peak2_pos}`, `i + 3` inside the series), in beat order.
The `table_by_row` dictionary of the source is output-only and omitted. -/
def build_strong_rows_tact_table (beats : List Beat) (peak1_pos peak2_pos : ℕ) :
    List Tact :=
  if beats.length < 4 then []
  else
    (List.range (beats.length - 3)).filterMap fun i =>
      let pos := i % 8
      if pos = peak1_pos ∨ pos = peak2_pos then
        let ts := ((List.range 4).map fun j => (beats.getD (i + j) default).perceptual_energy).sum
        some { row_position := pos, beat := i, tact_sum := round4 ts, tact_avg := round4 (ts / 4) }
      else none

/-- `find_song_start`: first tact of the strong-row table whose stored
`tact_sum` exceeds `4 * mean_energy * (1 - reduction)`, else beat 0.  Note that
the table's `tact_sum` is a sum of `perceptual_energy` while the threshold is
derived from the mean of `energy` (see claim C7).  The source also returns the
table; the embedding returns the start index only, the table being
`build_strong_rows_tact_table` itself. -/
def find_song_start (beats : List Beat) (cfg : AnalysisConfig) (peak1_pos peak2_pos : ℕ) : ℕ :=
  if beats.length < 4 then 0
  else
    let mean_energy := (beats.map Beat.energy).sum / (beats.length : ℚ)
    let threshold_tact_sum := 4 * (mean_energy * (1 - cfg.energy_threshold_reduction))
    let table := build_strong_rows_tact_table beats peak1_pos peak2_pos
    match table.find? fun r => decide (threshold_tact_sum < r.tact_sum) with
    | some r => r.beat
    | none => 0

/-- `find_song_start_perc`: the phase resolver used by the v2 pipeline.  First
tact of the strong-row table whose stored `tact_avg` exceeds
`mean_perc / (1 - perc_start_threshold)`; beat 0 when no perceptual data is
available or no tact qualifies. -/
def find_song_start_perc (beats : List Beat) (peak1_pos peak2_pos : ℕ)
    (cfg : AnalysisConfig) : ℕ :=
  let table := build_strong_rows_tact_table beats peak1_pos peak2_pos
  let perc := beats.map Beat.perceptual_energy
  if perc.all fun v => decide (v = 0) then 0
  else
    let mean_perc := perc.sum / (beats.length : ℚ)
    let threshold_tact_avg := mean_perc / (1 - cfg.perc_start_threshold)
    match table.find? fun r => decide (threshold_tact_avg < r.tact_avg) with
    | some r => r.beat
    | none => 0

/-! `determine_rows` (Phase 1, pass 3). -/

/-- The `row1_energy` and `row5_energy` lists of `determine_rows`: for each of
the first `initial_quarters_count` eights, the energy sum of its first four
beats (count 1-4) respectively its last four (count 5-8); a window that fits
only partially contributes the single energy of its first beat, a window fully
out of range contributes nothing. -/
def rowEnergies (beats : List Beat) (start_idx : ℕ) (cfg : AnalysisConfig) :
    List ℚ × List ℚ :=
  let n := beats.length
  let grab := fun (s : ℕ) =>
    if s + 3 < n then some (((List.range 4).map fun j => (beats.getD (s + j) default).energy).sum)
    else if s < n then some (beats.getD s default).energy
    else none
  ((List.range cfg.initial_quarters_count).filterMap fun q => grab (start_idx + q * 8),
   (List.range cfg.initial_quarters_count).filterMap fun q => grab (start_idx + q * 8 + 4))

/-- `determine_rows`: compares the count-1 row against the count-5 row over the
first `initial_quarters_count` tacts; if row 5 strictly dominates, re-compares
over the first 4 tacts; returns `(row1_offset, row_swapped)` —
`(4, true)` exactly when row 5 strictly dominates both times. -/
def determine_rows (beats : List Beat) (start_idx : ℕ) (cfg : AnalysisConfig) :
    ℕ × Bool :=
  let re := rowEnergies beats start_idx cfg
  if re.1 = [] ∨ re.2 = [] then (0, false)
  else if re.2.sum ≤ re.1.sum then (0, false)
  else if (re.2.take 4).sum ≤ (re.1.take 4).sum then (0, false)
  else (4, true)

/-! `analyze_square` (Phase 2). -/

/-- One part record of `analyze_square` (`compare_part`).  `status` is the
energy status; times are omitted as presentational. -/
structure SquarePart where
  row1_energy : ℚ
  row5_energy : ℚ
  status_energy : PartStatus
  row1_perc : ℚ
  row5_perc : ℚ
  status_perc : PartStatus
  status : PartStatus
deriving DecidableEq, Inhabited

/-- `compare_part`: sum energy and perceptual energy of the beats whose
position in the 8-cycle (shifted by `row1_offset`) is 0-3 (primary, "Row 1")
versus 4-7 (secondary, "Row 5"); `green` iff the primary sum is strictly
larger. -/
def compare_part (row1_offset : ℕ) (slice : List Beat) : SquarePart :=
  let prim := (slice.enum.filter fun p => decide ((p.1 + row1_offset) % 8 < 4)).map fun p => p.2
  let sec := (slice.enum.filter fun p => decide (¬ (p.1 + row1_offset) % 8 < 4)).map fun p => p.2
  let r1e := (prim.map Beat.energy).sum
  let r5e := (sec.map Beat.energy).sum
  let r1p := (prim.map Beat.perceptual_energy).sum
  let r5p := (sec.map Beat.perceptual_energy).sum
  { row1_energy := r1e, row5_energy := r5e,
    status_energy := if r5e < r1e then PartStatus.green else PartStatus.red,
    row1_perc := r1p, row5_perc := r5p,
    status_perc := if r5p < r1p then PartStatus.green else PartStatus.red,
    status := if r5e < r1e then PartStatus.green else PartStatus.red }

/-- The sub-range length of the `k`-way partition of `analyze_square`:
`(n_used // k) // 8 * 8`. -/
def partSize (n_used k : ℕ) : ℕ := n_used / k / 8 * 8

/-- The `i`-th sub-range of a partition with sub-range length `ps`:
`used[i*ps : (i+1)*ps]`. -/
def slicePart (used : List Beat) (ps i : ℕ) : List Beat :=
  (used.drop (i * ps)).take ps

/-- The result record of `analyze_square`. -/
structure SquareResult where
  parts : List (String × SquarePart)
  verdict : SquareVerdict
  row_dominance_pct : Option ℚ
deriving DecidableEq, Inhabited

/-- The parts dictionary of `analyze_square`: the 1/1 comparison followed by
the 1/2, 1/3 and 1/5 partitions, a partition being skipped when its sub-range
length would be below 8 beats. -/
def squareParts (used : List Beat) (n_used row1_offset : ℕ) : List (String × SquarePart) :=
  let cp := compare_part row1_offset
  let ps2 := partSize n_used 2
  let ps3 := partSize n_used 3
  let ps5 := partSize n_used 5
  [("1/1", cp used)]
  ++ (if 8 ≤ ps2 then
        [("1/2_first", cp (slicePart used ps2 0)), ("1/2_second", cp (slicePart used ps2 1))]
      else [])
  ++ (if 8 ≤ ps3 then
        [("1/3_first", cp (slicePart used ps3 0)), ("1/3_second", cp (slicePart used ps3 1)),
         ("1/3_third", cp (slicePart used ps3 2))]
      else [])
  ++ (if 8 ≤ ps5 then
        (List.range 5).map fun i => ("1/5_" ++ toString (i + 1), cp (slicePart used ps5 i))
      else [])

/-- `analyze_square`: truncate the active range to a multiple of 8 beats
(dropping the tail), build the 1/1, 1/2, 1/3 and 1/5 partitions (skipping a
partition whose sub-ranges would be shorter than 8 beats), and report
`has_bridges` iff any part is red by energy. -/
def analyze_square (beats : List Beat) (start_idx row1_offset : ℕ) : SquareResult :=
  let active := beats.drop start_idx
  let n := active.length
  if n < 8 then { parts := [], verdict := SquareVerdict.insufficient_data, row_dominance_pct := none }
  else
    let n_used := n / 8 * 8
    if n_used < 8 then { parts := [], verdict := SquareVerdict.insufficient_data, row_dominance_pct := none }
    else
      let used := active.take n_used
      let parts := squareParts used n_used row1_offset
      let has_red := parts.any fun p => decide (p.2.status = PartStatus.red)
      let verdict := if has_red then SquareVerdict.has_bridges else SquareVerdict.square_confirmed
      let total_r1 := (parts.map fun p => p.2.row1_energy).sum
      let total_r5 := (parts.map fun p => p.2.row5_energy).sum
      let rdp := if 0 < total_r5 then some ((total_r1 - total_r5) / total_r5 * 100) else none
      { parts := parts, verdict := verdict, row_dominance_pct := rdp }

/-! Quarters and indicators (Phase 3 inputs). -/

/-- One quarter record of `compute_quarters`: four consecutive beats starting
at local offset `4 * index` from `start_idx`, carrying the energy sum and the
current `'1-4'` / `'5-8'` position label (the label is later mutated by the
bridge detector; time omitted as presentational). -/
structure Quarter where
  index : ℕ
  beat_start_global : ℕ
  beat_start_local : ℕ
  energy_sum : ℚ
  position : RowPos
deriving DecidableEq, Inhabited

/-- `compute_quarters`: the table of all full 4-beat quarters from `start_idx`
on; quarter `q` is labelled `'1-4'` when `(q + row1_offset // 4)` is even. -/
def compute_quarters (beats : List Beat) (start_idx row1_offset : ℕ) : List Quarter :=
  let active := beats.drop start_idx
  let n := active.length
  (List.range (n / 4)).map fun q =>
    let i := 4 * q
    let es := ((List.range 4).map fun j => (active.getD (i + j) default).energy).sum
    { index := q, beat_start_global := start_idx + i, beat_start_local := i,
      energy_sum := es,
      position := if (q + row1_offset / 4) % 2 = 0 then RowPos.p14 else RowPos.p58 }

/-- One indicator of `compute_indicators_from_tacts`: a strong-row position
whose peak-beat energy is the minimum of its `±window` neighbourhood.
`energy_sum` is the (rounded) energy of the peak beat itself, as in the source;
the always-1.0 `probability` field is omitted. -/
structure BridgeIndicator where
  quarter_index : ℕ
  tact_index : ℕ
  beat : ℕ
  energy_sum : ℚ
  position : RowPos
deriving DecidableEq, Inhabited

/-- `compute_indicators_from_tacts`: walk the strong-row tacts from `start_idx`
on; position `i` (with a full `±window` neighbourhood) is an indicator when
`min(window energies) / energy(i)` equals 1 within `1e-9` and `energy(i) > 0`.
The observational `indicator_tact_table` of the source is omitted. -/
def compute_indicators_from_tacts (tacts : List Tact) (start_idx : ℕ)
    (beats : List Beat) (cfg : AnalysisConfig) : List BridgeIndicator :=
  let window := cfg.indicator_window
  let song_tacts := tacts.filter fun t => decide (start_idx ≤ t.beat)
  if song_tacts.length < 2 * window + 1 then []
  else
    let beat_energies := song_tacts.map fun t =>
      if t.beat < beats.length then (beats.getD t.beat default).energy else 0
    (List.range' window (song_tacts.length - 2 * window)).filterMap fun i =>
      let window_energies := (List.range (2 * window + 1)).map fun j =>
        beat_energies.getD (i - window + j) 0
      let min_in_window := window_energies.foldl min (window_energies.headD 0)
      let current := beat_energies.getD i 0
      if current ≤ 0 then none
      else
        let probability := min_in_window / current
        if |probability - 1| < 1 / 1000000000 then
          let t := song_tacts.getD i default
          let pos8 := (t.beat - start_idx) % 8
          some { quarter_index := (t.beat - start_idx) / 4, tact_index := i, beat := t.beat,
                 energy_sum := round4 current,
                 position := if pos8 < 4 then RowPos.p14 else RowPos.p58 }
        else none

/-! The bridge detector (`analyze_bridges`, Phase 3). -/

/-- `QUARTERS_PER_SMALL_SQUARE`: one small square = 16 beats = 4 quarters. -/
def QUARTERS_PER_SMALL_SQUARE : ℕ := 4

/-- `QUARTERS_PER_SQUARE`: one square = 32 beats = 8 quarters. -/
def QUARTERS_PER_SQUARE : ℕ := 8

/-- One confirmed bridge record. -/
structure Bridge where
  beat : ℕ
  quarter_index : ℕ
  row1_sum : ℚ
  row5_sum : ℚ
  diff_pct : ℚ
deriving DecidableEq, Inhabited

/-- The `action` strings of the per-indicator decision records. -/
inductive BridgeDecision
  | ignored_break
  | ignored_same_square
  | ignored_no_data
  | ignored_small_diff
  | bridge_confirmed
  | ignored_no_change
deriving DecidableEq, Inhabited

/-- The loop state of `analyze_bridges`: the confirmed bridges, the quarter of
the last confirmed bridge (`last_bridge_quarter`, `-999`/absent modelled as
`none`), the quarter table (mutated in place in the source) and the decision
log. -/
structure BridgeScanState where
  bridges : List Bridge
  lastQ : Option ℕ
  quarters : List Quarter
  decisions : List (BridgeIndicator × BridgeDecision)
deriving DecidableEq, Inhabited

/-- `_sum_next_quarters`: Row-1 and Row-5 energy sums of `count` quarters
starting at quarter `start_qi` (clipped to the table). -/
def sum_next_quarters (quarters : List Quarter) (start_qi count : ℕ) : ℚ × ℚ :=
  ((quarters.drop start_qi).take count).foldl
    (fun s q =>
      if q.position = RowPos.p14 then (s.1 + q.energy_sum, s.2) else (s.1, s.2 + q.energy_sum))
    (0, 0)

/-- Flip the position label of every quarter at list position strictly greater
than `i0` (helper for `_swap_quarters_after`, carrying the running position). -/
def swapFrom (bridge_qi i0 : ℕ) : List Quarter → List Quarter
  | [] => []
  | q :: qs =>
      (if bridge_qi < i0 then { q with position := flipPos q.position } else q)
        :: swapFrom bridge_qi (i0 + 1) qs

/-- `_swap_quarters_after`: flip `'1-4' <-> '5-8'` for every quarter after the
bridge quarter (list positions `bridge_qi + 1` onwards). -/
def swap_quarters_after (quarters : List Quarter) (bridge_qi : ℕ) : List Quarter :=
  swapFrom bridge_qi 0 quarters

/-- The indicator's position in the current layout: flipped when an odd number
of bridges has been confirmed so far. -/
def posInLayout (n_swaps : ℕ) (p : RowPos) : RowPos :=
  if n_swaps % 2 = 0 then p else flipPos p

/-- The small-square exclusion test of `analyze_bridges`: true when a bridge
was already confirmed and the indicator's quarter lies in the same aligned
block of `QUARTERS_PER_SMALL_SQUARE` quarters. -/
def sameSmallSquare (lastQ : Option ℕ) (qi : ℕ) : Bool :=
  match lastQ with
  | some l => decide (qi / QUARTERS_PER_SMALL_SQUARE = l / QUARTERS_PER_SMALL_SQUARE)
  | none => false

/-- The `diff_pct` of `analyze_bridges`: `abs(r1 - r5) / max(r1, r5, 0.001)`. -/
def bridgeDiffPct (r1 r5 : ℚ) : ℚ := |r1 - r5| / max (max r1 r5) (1/1000)

/-- The confirmation tail of the `analyze_bridges` loop body: when Row 5
strictly dominates, record the bridge, remember its quarter and flip every
later quarter; otherwise log `ignored_no_change`. -/
def confirmOrReject (st : BridgeScanState) (ind : BridgeIndicator) (r1 r5 diff : ℚ) :
    BridgeScanState :=
  if r1 < r5 then
    { bridges := st.bridges ++
        [{ beat := ind.beat, quarter_index := ind.quarter_index,
           row1_sum := r1, row5_sum := r5, diff_pct := diff * 100 }],
      lastQ := some ind.quarter_index,
      quarters := swap_quarters_after st.quarters ind.quarter_index,
      decisions := st.decisions ++ [(ind, BridgeDecision.bridge_confirmed)] }
  else { st with decisions := st.decisions ++ [(ind, BridgeDecision.ignored_no_change)] }

/-- One iteration of the `analyze_bridges` loop over the indicator list. -/
def bridgeStep (cfg : AnalysisConfig) (st : BridgeScanState) (ind : BridgeIndicator) :
    BridgeScanState :=
  let qi := ind.quarter_index
  if posInLayout st.bridges.length ind.position = RowPos.p58 then
    { st with decisions := st.decisions ++ [(ind, BridgeDecision.ignored_break)] }
  else if sameSmallSquare st.lastQ qi then
    { st with decisions := st.decisions ++ [(ind, BridgeDecision.ignored_same_square)] }
  else
    let next_square_start := (qi / QUARTERS_PER_SQUARE + 1) * QUARTERS_PER_SQUARE
    let s := sum_next_quarters st.quarters next_square_start QUARTERS_PER_SQUARE
    if s.1 = 0 ∧ s.2 = 0 then
      { st with decisions := st.decisions ++ [(ind, BridgeDecision.ignored_no_data)] }
    else
      let diff := bridgeDiffPct s.1 s.2
      if diff < cfg.bridge_dominance_threshold then
        let s2 := sum_next_quarters st.quarters next_square_start
          (QUARTERS_PER_SQUARE + QUARTERS_PER_SMALL_SQUARE)
        let diff2 := bridgeDiffPct s2.1 s2.2
        if diff2 < cfg.bridge_dominance_threshold then
          { st with decisions := st.decisions ++ [(ind, BridgeDecision.ignored_small_diff)] }
        else confirmOrReject st ind s2.1 s2.2 diff2
      else confirmOrReject st ind s.1 s.2 diff

/-- `analyze_bridges`: fold the loop body over the indicators.  Returns the
confirmed bridges, the final (swap-mutated) quarter table and the decision
log; the source returns `(bridges, decisions)` and mutates `quarters`. -/
def analyze_bridges (indicators : List BridgeIndicator) (quarters : List Quarter)
    (cfg : AnalysisConfig) : List Bridge × List Quarter × List (BridgeIndicator × BridgeDecision) :=
  let fin := indicators.foldl (bridgeStep cfg)
    { bridges := [], lastQ := none, quarters := quarters, decisions := [] }
  (fin.bridges, fin.quarters, fin.decisions)

/-! Perceptual observational lists. -/

/-- One perceptual bridge candidate of `compute_perc_bridge_candidates`. -/
structure PercCandidate where
  beat : ℕ
  position : RowPos
  perc_energy : ℚ
deriving DecidableEq, Inhabited

/-- `compute_perc_bridge_candidates`: strong-row positions whose perceptual
energy is a local minimum of the `±window` neighbourhood (observational only). -/
def compute_perc_bridge_candidates (tacts : List Tact) (start_idx : ℕ)
    (beats : List Beat) (cfg : AnalysisConfig) : List PercCandidate :=
  let window := cfg.indicator_window
  let song_tacts := tacts.filter fun t => decide (start_idx ≤ t.beat)
  if song_tacts.length < 2 * window + 1 then []
  else
    let perc_energies := song_tacts.map fun t =>
      if t.beat < beats.length then (beats.getD t.beat default).perceptual_energy else 0
    if perc_energies.all fun pe => decide (pe = 0) then []
    else
      (List.range' window (song_tacts.length - 2 * window)).filterMap fun i =>
        let current := perc_energies.getD i 0
        let window_vals := (List.range (2 * window + 1)).map fun j =>
          perc_energies.getD (i - window + j) 0
        let min_in_window := window_vals.foldl min (window_vals.headD 0)
        if |current - min_in_window| < 1 / 1000000000 then
          let t := song_tacts.getD i default
          let pos8 := (t.beat - start_idx) % 8
          some { beat := t.beat,
                 position := if pos8 < 4 then RowPos.p14 else RowPos.p58,
                 perc_energy := current }
        else none

/-- One perceptually confirmed bridge of `analyze_perc_bridges`. -/
structure PercBridge where
  beat : ℕ
  position : RowPos
  diff_pct : ℚ
deriving DecidableEq, Inhabited

/-- The physical Row-1 / Row-5 perceptual sums over `n` beats from
`beat_start` (`_perc_lookahead` in `analyze_perc_bridges`). -/
def percLookahead (beats : List Beat) (beat_start n : ℕ) : ℚ × ℚ :=
  (List.range n).foldl
    (fun s off =>
      if beat_start + off < beats.length then
        let pe := (beats.getD (beat_start + off) default).perceptual_energy
        if off % 8 < 4 then (s.1 + pe, s.2) else (s.1, s.2 + pe)
      else s)
    (0, 0)

/-- One iteration of the `analyze_perc_bridges` loop: state is the confirmed
list and the beat of the last confirmed bridge (`-999`/absent as `none`). -/
def percBridgeStep (beats : List Beat) (cfg : AnalysisConfig)
    (st : List PercBridge × Option ℕ) (ind : BridgeIndicator) :
    List PercBridge × Option ℕ :=
  let pos_logical := posInLayout st.1.length ind.position
  if pos_logical = RowPos.p58 then st
  else if match st.2 with
          | some lb => decide (ind.beat - lb < 16)
          | none => false then st
  else
    let s := percLookahead beats ind.beat 32
    if s.1 = 0 then st
    else
      let diff0 := (s.2 - s.1) / |s.1|
      let s2 := percLookahead beats (ind.beat + 32) 16
      let r1 := if diff0 < cfg.perc_bridge_threshold then s.1 + s2.1 else s.1
      let r5 := if diff0 < cfg.perc_bridge_threshold then s.2 + s2.2 else s.2
      let diff := if diff0 < cfg.perc_bridge_threshold then
          (if r1 = 0 then diff0 else (r5 - r1) / |r1|)
        else diff0
      if r1 < r5 ∧ cfg.perc_bridge_threshold ≤ diff then
        (st.1 ++ [{ beat := ind.beat, position := ind.position, diff_pct := diff * 100 }],
         some ind.beat)
      else st

/-- `analyze_perc_bridges`: perceptual validation of the indicators; does not
touch the quarter table.  The `has_perc` precheck of the source inspects the
first 20 beats. -/
def analyze_perc_bridges (indicators : List BridgeIndicator) (beats : List Beat)
    (cfg : AnalysisConfig) : List PercBridge :=
  let has_perc := ((beats.take 20).map Beat.perceptual_energy).any fun v => decide (v ≠ 0)
  if ¬ has_perc then []
  else (indicators.foldl (percBridgeStep beats cfg) ([], none)).1

/-! Layout generation. -/

/-- One layout segment.  `to_beat` is an integer because the source computes
`beat_start_global - 1`, which is `-1` for a bridge at global beat 0; times are
omitted as presentational. -/
structure LayoutSegment where
  from_beat : ℕ
  to_beat : ℤ
  row1_start : ℕ
deriving DecidableEq, Inhabited

/-- The loop body of `generate_layout`: accumulator is
`(layout, current_row_start, segment_start_beat)`; at a quarter whose global
start beat is a bridge beat, close the running segment and open a new one
there with the row toggled. -/
def layoutStep (bridge_beats : List ℕ) (acc : List LayoutSegment × ℕ × ℕ) (q : Quarter) :
    List LayoutSegment × ℕ × ℕ :=
  if q.beat_start_global ∈ bridge_beats then
    (acc.1 ++ [{ from_beat := acc.2.2, to_beat := (q.beat_start_global : ℤ) - 1,
                 row1_start := acc.2.1 }],
     if acc.2.1 = 1 then 5 else 1,
     q.beat_start_global)
  else acc

/-- `generate_layout`: walk the quarters, toggling the row at each bridge beat,
then emit the final segment through `min(last quarter start + 3, len(beats)-1)`.
The first segment starts with row 5 when `row1_offset = 4`. -/
def generate_layout (quarters : List Quarter) (bridges : List Bridge)
    (start_idx : ℕ) (beats : List Beat) (row1_offset : ℕ) : List LayoutSegment :=
  match quarters with
  | [] => []
  | q0 :: _ =>
    let bridge_beats := bridges.map Bridge.beat
    let init : List LayoutSegment × ℕ × ℕ :=
      ([], if row1_offset = 4 then 5 else 1, q0.beat_start_global)
    let fin := quarters.foldl (layoutStep bridge_beats) init
    let last_beat := min (((quarters.getLast?).getD q0).beat_start_global + 3) (beats.length - 1)
    fin.1 ++ [{ from_beat := fin.2.2, to_beat := (last_beat : ℤ), row1_start := fin.2.1 }]

/-- `analyze_popsa`: the alternating layout of a 4-peak track — one segment per
full 4-beat chunk from `start_idx`, rows alternating 1, 5, 1, 5, … -/
def analyze_popsa (beats : List Beat) (start_idx : ℕ) : List LayoutSegment :=
  let active := beats.drop start_idx
  (List.range (active.length / 4)).map fun k =>
    let i := 4 * k
    { from_beat := start_idx + i, to_beat := (start_idx + i + 3 : ℤ),
      row1_start := if (i / 4) % 2 = 0 then 1 else 5 }

/-! The top-level pipeline (`analyze_v2`), modelled from the point where the
beat oracle has produced the per-beat feature series (audio decoding, madmom
inference, BPM estimation and JSON output are external collaborators; the
output's `+1` beat re-indexing is presentational and omitted). -/

/-- The dance-branch result of `analyze_v2` (the fields the analysed claims
talk about). -/
structure DanceResult where
  start_idx : ℕ
  row_swapped : Bool
  square : SquareResult
  quarters : List Quarter
  indicators : List (BridgeIndicator × BridgeDecision)
  bridges : List Bridge
  perc_bridge_candidates : List PercCandidate
  perc_confirmed_bridges : List PercBridge
  layout : List LayoutSegment
deriving DecidableEq, Inhabited

/-- The result of `analyze_v2`: the popsa short-circuit or the dance branch. -/
inductive V2Result
  | popsa (song_start : ℕ) (layout : List LayoutSegment)
  | dance (r : DanceResult)
deriving DecidableEq, Inhabited

/-- The resolved start beat of `analyze_v2`: the perceptual phase resolver's
tact start, snapped back by whole eights (`shift_back = (start_idx // 8) * 8`)
so that the grid spans the track from its first phrase. -/
def pipelineStart (beats : List Beat) (cfg : AnalysisConfig) : ℕ :=
  let pk := classify_peaks (beats.map Beat.madmom_score) cfg
  let start0 := find_song_start_perc beats pk.2.1 pk.2.2 cfg
  let shift_back := start0 / 8 * 8
  start0 - shift_back

/-- `analyze_v2` after beat extraction: fails with the `Not enough beats` error
when the oracle produced fewer than 16 beats; otherwise classifies, resolves
the start (snapping it back by whole eights), and either short-circuits to the
popsa layout or runs the dance branch — in which the indicator/bridge scan is
disabled (`ФАЗА 3 … отключён`): the indicator, bridge and perceptual lists are
set empty and the layout is generated without bridges. -/
def analyze_v2_model (beats : List Beat) (cfg : AnalysisConfig) : Except String V2Result :=
  if beats.length < 16 then
    Except.error ("Not enough beats (" ++ toString beats.length ++ ")")
  else
    let pk := classify_peaks (beats.map Beat.madmom_score) cfg
    let start_idx := pipelineStart beats cfg
    if pk.1 = 4 then
      Except.ok (V2Result.popsa pk.2.1 (analyze_popsa beats pk.2.1))
    else
      Except.ok (V2Result.dance
        { start_idx := start_idx, row_swapped := false,
          square := analyze_square beats start_idx 0,
          quarters := compute_quarters beats start_idx 0,
          indicators := [], bridges := [],
          perc_bridge_candidates := [], perc_confirmed_bridges := [],
          layout := generate_layout (compute_quarters beats start_idx 0) [] start_idx beats 0 })

/-- Whether an `analyze_v2` run produced a result (`'success': True`). -/
def analysisOk : Except String V2Result → Bool
  | Except.ok _ => true
  | Except.error _ => false

/-- The `row_swapped` field of a dance-branch result, when there is one. -/
def rowSwappedOf : Except String V2Result → Option Bool
  | Except.ok (V2Result.dance r) => some r.row_swapped
  | _ => none

/-! Spec-side comparison definitions.  These follow the wording of the
specification / claims, not the source, and exist only to be compared with the
source-derived definitions above. -/

/-- The tact energy sum as the specification words it (§4.2:
`tact_energy = sum(energy of the 4 beats)`): the sum of the `energy` field of
the four beats starting at `i` — not of `perceptual_energy`. -/
def energyTactSum (beats : List Beat) (i : ℕ) : ℚ :=
  ((List.range 4).map fun j => (beats.getD (i + j) default).energy).sum

/-- The phase-resolver threshold exactly as claim C7 words it:
`4 × global_mean_energy × (1 − 0.30)`. -/
def energyThresholdTact (beats : List Beat) (cfg : AnalysisConfig) : ℚ :=
  4 * ((beats.map Beat.energy).sum / (beats.length : ℚ) * (1 - cfg.energy_threshold_reduction))

/-- The phase resolver as claim C7 describes it: scan the strong-row tact
table in temporal order and return the start of the first tact whose tact
ENERGY sum exceeds the threshold; 0 when none does or fewer than 4 beats. -/
def claimFindSongStart (beats : List Beat) (cfg : AnalysisConfig)
    (peak1_pos peak2_pos : ℕ) : ℕ :=
  if beats.length < 4 then 0
  else
    let threshold := energyThresholdTact beats cfg
    let table := build_strong_rows_tact_table beats peak1_pos peak2_pos
    match table.find? fun r => decide (threshold < energyTactSum beats r.beat) with
    | some r => r.beat
    | none => 0

/-- The `peak2` choice as claim C5 words it: "the remaining residue closest to
`(peak1 + 4) mod 8` — the exact match when available".  The exact match
`(peak1 + 4) % 8` always differs from `peak1`, hence is always an available
remaining residue, so the claim's `peak2` is that residue itself. -/
def claimPeak2 (peak1 : ℕ) : ℕ := (peak1 + 4) % 8

/-- The row assignment claim C9 asserts at beat `i`: the initial position
XOR-ed with the parity of the number of confirmed bridges whose beat index is
less than or equal to `i`. -/
def claimRowAssign (bridges : List Bridge) (initial : RowPos) (i : ℕ) : RowPos :=
  if (bridges.filter fun b => decide (b.beat ≤ i)).length % 2 = 0 then initial
  else flipPos initial

/-! Concrete inputs for the counterexamples and witnesses. -/

/-- Energy profile of the C1 input: strong beats `4k` carry `10 + k`, with a
single dip to `1` at `k = 4` (beat 16) making exactly one indicator; beat 33
adds 10 so that the square after the indicator keeps Row 1 dominant with a
difference above 3%. -/
def energyC1 (b : ℕ) : ℚ :=
  if b % 4 = 0 then (if b / 4 = 4 then 1 else 10 + (b / 4 : ℚ))
  else if b = 33 then 10 else 0

/-- The 64-beat series of the C1 counterexample. -/
def beatsC1 : List Beat := (List.range 64).map fun b => { energy := energyC1 b, perceptual_energy := 0, madmom_score := 0 }

/-- Its strong-row tact table for peaks 0 and 4. -/
def tactsC1 : List Tact := build_strong_rows_tact_table beatsC1 0 4

/-- Its indicators from start 0. -/
def indsC1 : List BridgeIndicator := compute_indicators_from_tacts tactsC1 0 beatsC1 defaultConfig

/-- Its quarter table from start 0. -/
def qtrsC1 : List Quarter := compute_quarters beatsC1 0 0

/-- Energy profile of the C6 input: strong beats `4k` carry `10 + k` with dips
to `1` at `k = 6` (beat 24) and `k = 9` (beat 36), giving exactly two
indicators; beats 37 and 65 add off-row energy so that both lookahead squares
show Row 5 dominating by more than 3%. -/
def energyC6 (b : ℕ) : ℚ :=
  if b % 4 = 0 then (if b / 4 = 6 ∨ b / 4 = 9 then 1 else 10 + (b / 4 : ℚ))
  else if b = 37 then 30 else if b = 65 then 20 else 0

/-- The 96-beat series of the C6 counterexample. -/
def beatsC6 : List Beat := (List.range 96).map fun b => { energy := energyC6 b, perceptual_energy := 0, madmom_score := 0 }

/-- Its strong-row tact table for peaks 0 and 4. -/
def tactsC6 : List Tact := build_strong_rows_tact_table beatsC6 0 4

/-- Its indicators from start 0. -/
def indsC6 : List BridgeIndicator := compute_indicators_from_tacts tactsC6 0 beatsC6 defaultConfig

/-- Its quarter table from start 0. -/
def qtrsC6 : List Quarter := compute_quarters beatsC6 0 0

/-- Energy profile of the C9 input: strong beats `4k` carry `10 + k` with a
single dip to `1` at `k = 6` (beat 24); all other beats are silent.  The
square after the indicator has Row 5 ahead by about 4.5%, so the single
indicator is confirmed as a bridge. -/
def energyC9 (b : ℕ) : ℚ :=
  if b % 4 = 0 then (if b / 4 = 6 then 1 else 10 + (b / 4 : ℚ)) else 0

/-- The 64-beat series of the C9 counterexample. -/
def beatsC9 : List Beat := (List.range 64).map fun b => { energy := energyC9 b, perceptual_energy := 0, madmom_score := 0 }

/-- Its strong-row tact table for peaks 0 and 4. -/
def tactsC9 : List Tact := build_strong_rows_tact_table beatsC9 0 4

/-- Its indicators from start 0. -/
def indsC9 : List BridgeIndicator := compute_indicators_from_tacts tactsC9 0 beatsC9 defaultConfig

/-- Its quarter table from start 0. -/
def qtrsC9 : List Quarter := compute_quarters beatsC9 0 0

/-- The 16-beat series used against C3 (and as the C2 witness input): madmom
scores put the peaks at residues 0 and 4 (2-peak classification), perceptual
energy is absent (start resolves to beat 0), and all the energy sits on
residues 4-7 — so `determine_rows` would swap, but the pipeline never calls
it. -/
def beatsC3 : List Beat := (List.range 16).map fun i =>
  { energy := if i % 8 ≥ 4 then 5 else 0,
    perceptual_energy := 0,
    madmom_score := if i = 0 ∨ i = 8 then 1 else if i = 4 ∨ i = 12 then 9/10 else 1/100 }

/-- The 24-beat all-ones series of the C4 counterexample (24 is a multiple of
8, yet the 2-way partition consumes only 16 beats). -/
def beatsC4 : List Beat := (List.range 24).map fun _ => { energy := 1, perceptual_energy := 0, madmom_score := 0 }

/-- The 8-beat all-ones series of the C8 counterexample: the single `1/1` part
ties Row 1 against Row 5. -/
def beatsC8 : List Beat := (List.range 8).map fun _ => { energy := 1, perceptual_energy := 0, madmom_score := 0 }

/-- The 12-beat series of the C7 failing input: every beat has energy 1 and no
perceptual energy, with strong rows at residues 2 and 6. -/
def beatsC7 : List Beat := (List.range 12).map fun _ => { energy := 1, perceptual_energy := 0, madmom_score := 0 }

/-- The per-beat madmom scores of the C5 counterexample: residue 0 scores 1.0
(peak1), residue 5 scores 0.9 (second-highest), residue 4 — the exact
`(peak1+4) % 8` match — scores 0.8. -/
def scoresC5 : List ℚ := [1, 1/10, 1/10, 1/10, 4/5, 9/10, 1/10, 1/10]

/-- The one-beat series of the C10 counterexample. -/
def beatsC10 : List Beat := [{ energy := 1, perceptual_energy := 1, madmom_score := 1 }]

/-- The `q`-th record of the quarter table. -/
def quarterOf (beats : List Beat) (start_idx off q : ℕ) : Quarter :=
  { index := q, beat_start_global := start_idx + 4 * q, beat_start_local := 4 * q,
    energy_sum := ((List.range 4).map fun j =>
      ((beats.drop start_idx).getD (4 * q + j) default).energy).sum,
    position := if (q + off / 4) % 2 = 0 then RowPos.p14 else RowPos.p58 }

/-- The concrete dance-branch record produced on the 16-beat input. -/
def rC2 : DanceResult :=
  { start_idx := 0, row_swapped := false,
    square := analyze_square beatsC3 0 0,
    quarters := compute_quarters beatsC3 0 0,
    indicators := [], bridges := [], perc_bridge_candidates := [],
    perc_confirmed_bridges := [],
    layout := generate_layout (compute_quarters beatsC3 0 0) [] 0 beatsC3 0 }

/-- The initial scan state on the C1 quarter table. -/
def st0C1 : BridgeScanState :=
  { bridges := [], lastQ := none, quarters := qtrsC1, decisions := [] }

/-- The single C1 indicator. -/
def indC1 : BridgeIndicator :=
  { quarter_index := 4, tact_index := 4, beat := 16, energy_sum := 1, position := RowPos.p14 }

/-- The invariant of the bridge-scan fold: bridges strictly increasing in
beat, consecutive bridges in different aligned small squares, `lastQ` the
quarter of the last confirmed bridge, and every confirmed bridge earlier than
every remaining indicator. -/
def scanInv (st : BridgeScanState) (rest : List BridgeIndicator) : Prop :=
  List.Pairwise (fun a b : Bridge => a.beat < b.beat) st.bridges ∧
  List.Chain' (fun a b : Bridge =>
    a.quarter_index / QUARTERS_PER_SMALL_SQUARE
      ≠ b.quarter_index / QUARTERS_PER_SMALL_SQUARE) st.bridges ∧
  st.lastQ = (st.bridges.getLast?).map Bridge.quarter_index ∧
  ∀ b ∈ st.bridges, ∀ i ∈ rest, b.beat < i.beat

/-- `flipPos` iterated `n` times: the identity for even `n`, one flip for odd. -/
def flipIter (n : ℕ) (p : RowPos) : RowPos := if n % 2 = 0 then p else flipPos p

/-- The cumulative effect of the bridge swaps on the quarter table: the
quarter at list position `j` is flipped once for every confirmed bridge whose
quarter index is STRICTLY below `j` (the bridge's own quarter keeps its
label). -/
def applyFlipsFrom (bs : List Bridge) : ℕ → List Quarter → List Quarter
  | _, [] => []
  | j, q :: qs =>
      { q with position :=
          flipIter ((bs.filter fun b => decide (b.quarter_index < j)).length) q.position }
        :: applyFlipsFrom bs (j + 1) qs

/-- The alternating row sequence 1, 5, 1, 5, … (or 5, 1, 5, …). -/
def altRows (r : ℕ) : ℕ → List ℕ
  | 0 => []
  | n + 1 => r :: altRows (if r = 1 then 5 else 1) n

/-! Helper lemmas. -/

/-- A part status that is not red is green. -/
lemma partStatus_not_red (p : PartStatus) : ¬ p = PartStatus.red ↔ p = PartStatus.green := by
  cases p <;> simp

/-- Membership in a conditional list that is empty in the negative branch. -/
lemma mem_ite_list {α : Type} {c : Prop} [Decidable c] {l : List α} {x : α}
    (h : x ∈ if c then l else []) : x ∈ l := by
  split at h
  · exact h
  · simp at h

/-- The status of a `compare_part` record is green exactly when its stored
Row-5 energy is strictly below its stored Row-1 energy. -/
lemma compare_part_status (off : ℕ) (s : List Beat) :
    (compare_part off s).status = PartStatus.green ↔
      (compare_part off s).row5_energy < (compare_part off s).row1_energy := by
  unfold compare_part
  dsimp only
  split
  · simp_all
  · simp_all

/-- C10 (corrected per the amendment): the analysis fails exactly on fewer
than 16 beats; with at least 16 beats every stage degrades locally and a
successful result is produced. -/
theorem C10_error_iff (beats : List Beat) (cfg : AnalysisConfig) :
    analysisOk (analyze_v2_model beats cfg) = true ↔ 16 ≤ beats.length := by
  unfold analyze_v2_model
  by_cases h : beats.length < 16
  · simp only [if_pos h]
    simp [analysisOk]
    omega
  · simp only [if_neg h]
    have hok : ∀ e : Except String V2Result, (∃ v, e = Except.ok v) → analysisOk e = true := by
      intro e ⟨v, hv⟩; subst hv; rfl
    constructor
    · intro _; omega
    · intro _
      dsimp only
      split
      · rfl
      · rfl

/-- C10 counterexample: a one-beat input — which the claim says must succeed —
is rejected as a hard error by the pipeline. -/
theorem C10_counterexample :
    beatsC10.length = 1 ∧ analysisOk (analyze_v2_model beatsC10 defaultConfig) = false := by
  with_unfolding_all decide

/-- C7 (code bug): on a 12-beat series with unit energy everywhere and no
perceptual data, the resolver's threshold is `4 * 1 * 0.7 = 2.8` and the
energy sum of the first strong-row tact (beat 2) is `4 > 2.8`, so the claim
(and spec §4.2) require start beat 2; but `find_song_start` compares the
threshold against the table's perceptual `tact_sum` (0 here) and returns 0. -/
theorem C7_divergence :
    find_song_start beatsC7 defaultConfig 2 6 = 0 ∧
    claimFindSongStart beatsC7 defaultConfig 2 6 = 2 ∧
    energyThresholdTact beatsC7 defaultConfig = 14/5 ∧
    energyTactSum beatsC7 2 = 4 ∧
    energyThresholdTact beatsC7 defaultConfig < energyTactSum beatsC7 2 ∧
    (build_strong_rows_tact_table beatsC7 2 6).map Tact.tact_sum = [0, 0] := by
  with_unfolding_all decide

/-- C8 counterexample: on eight beats of unit energy the single `1/1` part
ties Row 1 against Row 5 (4 = 4); the claim says a tie is green and the
verdict `square_confirmed`, but the code marks the tie red and reports
`has_bridges`. -/
theorem C8_counterexample :
    ((analyze_square beatsC8 0 0).parts.headD default).2.row1_energy = 4 ∧
    ((analyze_square beatsC8 0 0).parts.headD default).2.row5_energy = 4 ∧
    ((analyze_square beatsC8 0 0).parts.headD default).2.status = PartStatus.red ∧
    (analyze_square beatsC8 0 0).verdict = SquareVerdict.has_bridges := by
  with_unfolding_all decide

/-- C8 (corrected): a partition is green exactly when primary STRICTLY exceeds
secondary (a tie is red), and — outside the insufficient-data case — the
verdict is `square_confirmed` exactly when every partition is green. -/
theorem C8_green_iff (beats : List Beat) (start_idx row1_offset : ℕ) :
    (∀ kp ∈ (analyze_square beats start_idx row1_offset).parts,
        (kp.2.status = PartStatus.green ↔ kp.2.row5_energy < kp.2.row1_energy)) ∧
    ((analyze_square beats start_idx row1_offset).verdict ≠ SquareVerdict.insufficient_data →
      ((analyze_square beats start_idx row1_offset).verdict = SquareVerdict.square_confirmed ↔
        ∀ kp ∈ (analyze_square beats start_idx row1_offset).parts,
          kp.2.status = PartStatus.green)) := by
  constructor
  · intro kp hkp
    unfold analyze_square at hkp
    dsimp only at hkp
    split at hkp
    · simp at hkp
    · split at hkp
      · simp at hkp
      · unfold squareParts at hkp
        simp only [List.append_assoc, List.mem_append, List.mem_cons, List.not_mem_nil,
          or_false] at hkp
        rcases hkp with h | h | h | h
        · rw [h]; exact compare_part_status _ _
        · have h' := mem_ite_list h
          simp only [List.mem_cons, List.not_mem_nil, or_false] at h'
          rcases h' with h' | h' <;> (rw [h']; exact compare_part_status _ _)
        · have h' := mem_ite_list h
          simp only [List.mem_cons, List.not_mem_nil, or_false] at h'
          rcases h' with h' | h' | h' <;> (rw [h']; exact compare_part_status _ _)
        · have h' := mem_ite_list h
          simp only [List.mem_map, List.mem_range] at h'
          obtain ⟨i, _, hi⟩ := h'
          rw [← hi]; exact compare_part_status _ _
  · intro hne
    by_cases h1 : (beats.drop start_idx).length < 8
    · exfalso; apply hne
      unfold analyze_square
      dsimp only
      rw [if_pos h1]
    · by_cases h2 : (beats.drop start_idx).length / 8 * 8 < 8
      · exfalso; apply hne
        unfold analyze_square
        dsimp only
        rw [if_neg h1, if_pos h2]
      · unfold analyze_square
        dsimp only
        rw [if_neg h1, if_neg h2]
        dsimp only
        split
        · next hany =>
          simp only [List.any_eq_true, decide_eq_true_eq] at hany
          obtain ⟨p, hp, hred⟩ := hany
          constructor
          · intro h; exact absurd h (by simp)
          · intro hall
            exfalso
            have := hall p hp
            rw [hred] at this
            exact absurd this (by simp)
        · next hany =>
          simp only [List.any_eq_true, decide_eq_true_eq] at hany
          push_neg at hany
          constructor
          · intro _ p hp
            have := hany p hp
            exact (partStatus_not_red p.2.status).mp this
          · intro _; rfl

/-- C8 witness: the amended verdict equivalence applied to the concrete
8-beat tie input. -/
theorem C8_green_iff_witness :
    (analyze_square beatsC8 0 0).verdict = SquareVerdict.square_confirmed ↔
      ∀ kp ∈ (analyze_square beatsC8 0 0).parts, kp.2.status = PartStatus.green :=
  (C8_green_iff beatsC8 0 0).2 (by with_unfolding_all decide)

/-- Concatenating the `k` sub-ranges of length `ps` yields exactly the prefix
of length `k * ps`: the partition is contiguous, without gaps or overlaps. -/
lemma flatten_chunks (l : List Beat) (ps : ℕ) :
    ∀ k, ((List.range k).map fun i => slicePart l ps i).flatten = l.take (k * ps) := by
  intro k
  induction k with
  | zero => simp
  | succ k ih =>
    rw [List.range_succ, List.map_append, List.flatten_append, ih]
    simp only [List.map_cons, List.map_nil, List.flatten_cons, List.flatten_nil,
      List.append_nil]
    rw [Nat.succ_mul, List.take_add]
    rfl

/-- A `k`-way partition consumes at most the truncated range. -/
lemma k_partSize_le (n k : ℕ) : k * partSize n k ≤ n := by
  unfold partSize
  calc k * (n / k / 8 * 8) ≤ k * (n / k) :=
        Nat.mul_le_mul_left k (Nat.div_mul_le_self (n / k) 8)
    _ = (n / k) * k := Nat.mul_comm ..
    _ ≤ n := Nat.div_mul_le_self n k

/-- C4 counterexample: 24 beats of unit energy — 24 is a multiple of 8 and the
2-way partition is present (`part_size = 8 ≥ 8`), yet its two sub-ranges
consume only 16 of the 24 beats, contradicting the claim that every partition
consumes exactly N beats. -/
theorem C4_counterexample :
    beatsC4.length = 24 ∧ (24 : ℕ) % 8 = 0 ∧
    partSize 24 2 = 8 ∧
    (analyze_square beatsC4 0 0).parts.lookup "1/2_first"
      = some (compare_part 0 (slicePart beatsC4 8 0)) ∧
    (slicePart beatsC4 8 0 ++ slicePart beatsC4 8 1).length = 16 := by
  with_unfolding_all decide

/-- C4 (corrected): the truncation keeps the largest multiple of 8 as a PREFIX
of the active range (only trailing beats are dropped), and each k-way
partition (k = 1, 2, 3, 5) consumes — contiguously, without gaps or
overlaps — exactly the prefix of `k * part_size` beats of the truncated
range, which for k = 2, 3, 5 may be strictly less than N; only the 1-way
partition always consumes all N beats. -/
theorem C4_partition_coverage (beats : List Beat) (start_idx row1_offset : ℕ) :
    let active := beats.drop start_idx
    let n_used := active.length / 8 * 8
    let used := active.take n_used
    n_used % 8 = 0 ∧
    n_used ≤ active.length ∧
    active.length - n_used < 8 ∧
    used ++ active.drop n_used = active ∧
    partSize n_used 1 = n_used ∧
    (∀ k ∈ [1, 2, 3, 5],
      ((List.range k).map fun i => slicePart used (partSize n_used k) i).flatten
        = used.take (k * partSize n_used k) ∧
      k * partSize n_used k ≤ n_used) ∧
    (8 ≤ active.length →
      (analyze_square beats start_idx row1_offset).parts
        = squareParts used n_used row1_offset) := by
  intro active n_used used
  have hmod : n_used % 8 = 0 := Nat.mul_mod_left (active.length / 8) 8
  have hle : n_used ≤ active.length := Nat.div_mul_le_self active.length 8
  have hdm := Nat.div_add_mod active.length 8
  have hm8 := Nat.mod_lt active.length (show 0 < 8 by norm_num)
  refine ⟨hmod, hle, by omega, List.take_append_drop .., ?_, ?_, ?_⟩
  · show n_used / 1 / 8 * 8 = n_used
    rw [Nat.div_one]
    exact Nat.div_mul_cancel (Nat.dvd_of_mod_eq_zero hmod)
  · intro k hk
    fin_cases hk <;> exact ⟨flatten_chunks used (partSize n_used _) _, k_partSize_le n_used _⟩
  · intro h8
    have hn1 : ¬ active.length < 8 := by omega
    have hn2 : ¬ active.length / 8 * 8 < 8 := by
      have : 1 ≤ active.length / 8 := (Nat.one_le_div_iff (by norm_num)).mpr h8
      omega
    unfold analyze_square
    dsimp only
    rw [if_neg hn1, if_neg hn2]

/-- C4 witness: the amended partition facts at the concrete 24-beat input. -/
theorem C4_witness :
    ((List.range 2).map fun i =>
        slicePart ((beatsC4.drop 0).take ((beatsC4.drop 0).length / 8 * 8))
          (partSize ((beatsC4.drop 0).length / 8 * 8) 2) i).flatten
      = ((beatsC4.drop 0).take ((beatsC4.drop 0).length / 8 * 8)).take
          (2 * partSize ((beatsC4.drop 0).length / 8 * 8) 2) ∧
    (analyze_square beatsC4 0 0).parts
      = squareParts ((beatsC4.drop 0).take ((beatsC4.drop 0).length / 8 * 8))
          ((beatsC4.drop 0).length / 8 * 8) 0 :=
  ⟨((C4_partition_coverage beatsC4 0 0).2.2.2.2.2.1 2 (by decide)).1,
   (C4_partition_coverage beatsC4 0 0).2.2.2.2.2.2 (by with_unfolding_all decide)⟩

/-- The resolved start beat is at most 7: snapping back by whole eights leaves
the residue modulo 8. -/
lemma pipelineStart_le (beats : List Beat) (cfg : AnalysisConfig) :
    pipelineStart beats cfg ≤ 7 := by
  unfold pipelineStart
  dsimp only
  omega

/-- With no bridges the layout fold is the identity. -/
lemma foldl_layoutStep_nil (qtrs : List Quarter) (acc : List LayoutSegment × ℕ × ℕ) :
    qtrs.foldl (layoutStep []) acc = acc := by
  induction qtrs generalizing acc with
  | nil => rfl
  | cons q qs ih =>
    rw [List.foldl_cons, show layoutStep [] acc q = acc from by unfold layoutStep; simp]
    exact ih acc

/-- `generate_layout` with an empty bridge list emits one segment from the
first quarter's start through `min(last quarter start + 3, len(beats) - 1)`. -/
lemma generate_layout_cons_nil (q0 : Quarter) (rest : List Quarter) (start_idx : ℕ)
    (beats : List Beat) (off : ℕ) :
    generate_layout (q0 :: rest) [] start_idx beats off
      = [{ from_beat := q0.beat_start_global,
           to_beat := ((min ((((q0 :: rest).getLast?).getD q0).beat_start_global + 3)
                          (beats.length - 1) : ℕ) : ℤ),
           row1_start := if off = 4 then 5 else 1 }] := by
  unfold generate_layout
  dsimp only [List.map_nil]
  rw [foldl_layoutStep_nil]
  rfl



/-- The quarter table, written as an explicit map over quarter numbers. -/
lemma compute_quarters_eq (beats : List Beat) (start_idx off : ℕ) :
    compute_quarters beats start_idx off
      = (List.range ((beats.length - start_idx) / 4)).map (quarterOf beats start_idx off) := by
  unfold compute_quarters quarterOf
  simp only [List.length_drop]

/-- The last element of a mapped range. -/
lemma map_range_getLast {α : Type} (f : ℕ → α) (m : ℕ) :
    ((List.range (m + 1)).map f).getLast? = some (f m) := by
  rw [List.range_succ, List.map_append]
  simp

/-- The head shape of a mapped range. -/
lemma map_range_cons {α : Type} (f : ℕ → α) (m : ℕ) :
    (List.range (m + 1)).map f = f 0 :: (List.range m).map (fun i => f (i + 1)) := by
  rw [List.range_succ_eq_map, List.map_cons, List.map_map]
  rfl

/-- The last element of the cons form of a mapped range. -/
lemma map_range_cons_getLast {α : Type} (f : ℕ → α) (m : ℕ) (d : α) :
    (((f 0 :: (List.range m).map (fun i => f (i + 1))).getLast?).getD d) = f m := by
  rw [← map_range_cons, map_range_getLast]
  rfl

/-- Shape of a dance-branch result: it is produced exactly by the disabled
Phase-3 pipeline, with empty indicator/bridge/perceptual lists,
`row_swapped = False` and a bridge-free layout. -/
lemma analyze_v2_dance_eq (beats : List Beat) (cfg : AnalysisConfig) (r : DanceResult)
    (h : analyze_v2_model beats cfg = Except.ok (V2Result.dance r)) :
    16 ≤ beats.length ∧
    r = { start_idx := pipelineStart beats cfg, row_swapped := false,
          square := analyze_square beats (pipelineStart beats cfg) 0,
          quarters := compute_quarters beats (pipelineStart beats cfg) 0,
          indicators := [], bridges := [], perc_bridge_candidates := [],
          perc_confirmed_bridges := [],
          layout := generate_layout (compute_quarters beats (pipelineStart beats cfg) 0) []
            (pipelineStart beats cfg) beats 0 } := by
  unfold analyze_v2_model at h
  split at h
  · exact absurd h (by simp)
  · next hlen =>
    refine ⟨by omega, ?_⟩
    dsimp only at h
    split at h
    · exact absurd h (by simp)
    · simp only [Except.ok.injEq, V2Result.dance.injEq] at h
      exact h.symm

/-- C2: in the dance branch the indicator and bridge scan never runs — all the
indicator, bridge and perceptual lists are empty, `row_swapped` is `False`,
and the layout is the single segment from the resolved start beat through the
end of the last full 4-beat quarter, with `row1_start = 1`. -/
theorem C2_dance_disabled (beats : List Beat) (cfg : AnalysisConfig) (r : DanceResult)
    (h : analyze_v2_model beats cfg = Except.ok (V2Result.dance r)) :
    r.indicators = [] ∧ r.bridges = [] ∧ r.perc_bridge_candidates = [] ∧
    r.perc_confirmed_bridges = [] ∧ r.row_swapped = false ∧
    r.layout = [{ from_beat := r.start_idx,
                  to_beat := ((r.start_idx + 4 * ((beats.length - r.start_idx) / 4) - 1 : ℕ) : ℤ),
                  row1_start := 1 }] := by
  obtain ⟨hlen, hr⟩ := analyze_v2_dance_eq beats cfg r h
  subst hr
  refine ⟨rfl, rfl, rfl, rfl, rfl, ?_⟩
  dsimp only
  have hs7 : pipelineStart beats cfg ≤ 7 := pipelineStart_le beats cfg
  set s := pipelineStart beats cfg with hsdef
  have hQpos : 2 ≤ (beats.length - s) / 4 := by omega
  obtain ⟨m, hm⟩ : ∃ m, (beats.length - s) / 4 = m + 1 := ⟨_, (Nat.succ_pred_eq_of_pos (by omega)).symm⟩
  rw [compute_quarters_eq, hm, map_range_cons]
  rw [generate_layout_cons_nil]
  rw [map_range_cons_getLast (quarterOf beats s 0) m]
  have h4m : 4 * (m + 1) ≤ beats.length - s := by
    have := Nat.div_mul_le_self (beats.length - s) 4
    omega
  have hq0 : (quarterOf beats s 0 0).beat_start_global = s := by
    unfold quarterOf
    dsimp only
    omega
  have hqm : (quarterOf beats s 0 m).beat_start_global = s + 4 * m := by
    unfold quarterOf
    rfl
  have hmin : min (s + 4 * m + 3) (beats.length - 1) = s + 4 * ((beats.length - s) / 4) - 1 := by
    omega
  rw [hq0, hqm, hmin]
  norm_num
  rw [hm]
  omega



/-- C2 witness: the dance-branch theorem applied to the concrete 16-beat
2-peak input. -/
theorem C2_dance_disabled_witness :
    rC2.bridges = [] ∧ rC2.row_swapped = false ∧
    rC2.layout = [{ from_beat := rC2.start_idx,
                    to_beat := ((rC2.start_idx + 4 * ((beatsC3.length - rC2.start_idx) / 4) - 1 : ℕ) : ℤ),
                    row1_start := 1 }] := by
  have h := C2_dance_disabled beatsC3 defaultConfig rC2 (by with_unfolding_all rfl)
  exact ⟨h.2.1, h.2.2.2.2.1, h.2.2.2.2.2⟩

/-- C3 counterexample: on a concrete 16-beat dance input whose energy sits
entirely on counts 5-8, `determine_rows` decides a swap — (4, true) — yet the
pipeline's dance analysis reports `row_swapped = False`: the swap validation
is not part of the v2 dance-track analysis. -/
theorem C3_counterexample :
    determine_rows beatsC3 0 defaultConfig = (4, true) ∧
    rowSwappedOf (analyze_v2_model beatsC3 defaultConfig) = some false := by
  with_unfolding_all decide

/-- C3 (corrected): the `determine_rows` validation flips the row exactly when
count-5 STRICTLY dominates count-1 over the first 8 tacts and still strictly
dominates over the first 4 (a tie keeps count-1 with no re-comparison) — but
the v2 pipeline never invokes it: every dance-track analysis reports
`row_swapped = False`. -/
theorem C3_swap_validation :
    (∀ (beats : List Beat) (cfg : AnalysisConfig) (r : DanceResult),
      analyze_v2_model beats cfg = Except.ok (V2Result.dance r) → r.row_swapped = false) ∧
    (∀ (beats : List Beat) (start_idx : ℕ) (cfg : AnalysisConfig),
      determine_rows beats start_idx cfg
        = if (rowEnergies beats start_idx cfg).1 ≠ [] ∧ (rowEnergies beats start_idx cfg).2 ≠ [] ∧
             (rowEnergies beats start_idx cfg).1.sum < (rowEnergies beats start_idx cfg).2.sum ∧
             ((rowEnergies beats start_idx cfg).1.take 4).sum
               < ((rowEnergies beats start_idx cfg).2.take 4).sum
          then (4, true) else (0, false)) := by
  constructor
  · intro beats cfg r h
    obtain ⟨-, hr⟩ := analyze_v2_dance_eq beats cfg r h
    rw [hr]
  · intro beats start_idx cfg
    unfold determine_rows
    dsimp only
    by_cases h1 : (rowEnergies beats start_idx cfg).1 = [] ∨ (rowEnergies beats start_idx cfg).2 = []
    · rw [if_pos h1, if_neg (by tauto)]
    · rw [if_neg h1]
      by_cases h2 : (rowEnergies beats start_idx cfg).2.sum ≤ (rowEnergies beats start_idx cfg).1.sum
      · rw [if_pos h2, if_neg (by intro hc; exact absurd hc.2.2.1 (not_lt.mpr h2))]
      · rw [if_neg h2]
        by_cases h3 : ((rowEnergies beats start_idx cfg).2.take 4).sum
            ≤ ((rowEnergies beats start_idx cfg).1.take 4).sum
        · rw [if_pos h3, if_neg (by intro hc; exact absurd hc.2.2.2 (not_lt.mpr h3))]
        · rw [if_neg h3, if_pos ?_]
          push_neg at h1 h2 h3
          exact ⟨h1.1, h1.2, h2, h3⟩

/-- C3 witness: both amended facts at the concrete 16-beat input. -/
theorem C3_swap_validation_witness :
    rC2.row_swapped = false ∧
    determine_rows beatsC3 0 defaultConfig
      = if (rowEnergies beatsC3 0 defaultConfig).1 ≠ [] ∧ (rowEnergies beatsC3 0 defaultConfig).2 ≠ [] ∧
           (rowEnergies beatsC3 0 defaultConfig).1.sum < (rowEnergies beatsC3 0 defaultConfig).2.sum ∧
           ((rowEnergies beatsC3 0 defaultConfig).1.take 4).sum
             < ((rowEnergies beatsC3 0 defaultConfig).2.take 4).sum
        then (4, true) else (0, false) :=
  ⟨C3_swap_validation.1 beatsC3 defaultConfig rC2 (by with_unfolding_all rfl),
   C3_swap_validation.2 beatsC3 0 defaultConfig⟩

/-- Case analysis of one bridge-detector step: either nothing is confirmed and
bridges, last-bridge quarter and quarter table are unchanged, or — only with
the small-square check passed — the indicator itself is appended as a bridge,
the last-bridge quarter becomes its quarter and every later quarter flips. -/
lemma bridgeStep_cases (cfg : AnalysisConfig) (st : BridgeScanState) (ind : BridgeIndicator) :
    ((bridgeStep cfg st ind).bridges = st.bridges ∧
     (bridgeStep cfg st ind).lastQ = st.lastQ ∧
     (bridgeStep cfg st ind).quarters = st.quarters) ∨
    (sameSmallSquare st.lastQ ind.quarter_index = false ∧
     (∃ r1 r5 d, (bridgeStep cfg st ind).bridges
        = st.bridges ++ [{ beat := ind.beat, quarter_index := ind.quarter_index,
                           row1_sum := r1, row5_sum := r5, diff_pct := d }]) ∧
     (bridgeStep cfg st ind).lastQ = some ind.quarter_index ∧
     (bridgeStep cfg st ind).quarters = swap_quarters_after st.quarters ind.quarter_index) := by
  unfold bridgeStep confirmOrReject
  dsimp only
  split
  · left; exact ⟨rfl, rfl, rfl⟩
  · split
    · left; exact ⟨rfl, rfl, rfl⟩
    · next hsq =>
      have hsq' : sameSmallSquare st.lastQ ind.quarter_index = false := by
        simpa using hsq
      split
      · left; exact ⟨rfl, rfl, rfl⟩
      · split
        · split
          · left; exact ⟨rfl, rfl, rfl⟩
          · split
            · right; exact ⟨hsq', ⟨_, _, _, rfl⟩, rfl, rfl⟩
            · left; exact ⟨rfl, rfl, rfl⟩
        · split
          · right; exact ⟨hsq', ⟨_, _, _, rfl⟩, rfl, rfl⟩
          · left; exact ⟨rfl, rfl, rfl⟩

/-- C1 counterexample: on the concrete 64-beat input the only indicator sits
at quarter 4 (beat 16), primary and unexcluded; over one square of 32 beats
STARTING AT THE INDICATOR the secondary sum (72) exceeds the primary (65)
with a difference above the 3% threshold, so the claim says the indicator is
confirmed — yet the detector confirms nothing, because it actually sums the
square starting at the next square boundary (quarters 8-15: 94 vs 88). -/
theorem C1_counterexample :
    indsC1 = [{ quarter_index := 4, tact_index := 4, beat := 16, energy_sum := 1,
                position := RowPos.p14 }] ∧
    sum_next_quarters qtrsC1 4 QUARTERS_PER_SQUARE = (65, 72) ∧
    defaultConfig.bridge_dominance_threshold ≤ bridgeDiffPct 65 72 ∧
    (65 : ℚ) < 72 ∧
    sum_next_quarters qtrsC1 8 QUARTERS_PER_SQUARE = (94, 88) ∧
    (analyze_bridges indsC1 qtrsC1 defaultConfig).1 = [] := by
  with_unfolding_all decide

/-- C1 (corrected): for an indicator that is primary in the current layout and
passes the small-square check, the detector sums one square of 8 quarters
starting at the NEXT SQUARE BOUNDARY after the indicator's quarter (not at the
indicator); if both sums are zero the indicator is skipped; if the difference
is below the threshold the sum is extended by one small square from the same
boundary and recomputed, the indicator being rejected if the difference is
still below threshold; otherwise it is confirmed exactly when the secondary
sum strictly exceeds the primary sum. -/
theorem C1_lookahead_from_next_square (cfg : AnalysisConfig) (st : BridgeScanState)
    (ind : BridgeIndicator)
    (hpos : posInLayout st.bridges.length ind.position = RowPos.p14)
    (hsq : sameSmallSquare st.lastQ ind.quarter_index = false) :
    (bridgeStep cfg st ind).bridges
      = (let ns := (ind.quarter_index / QUARTERS_PER_SQUARE + 1) * QUARTERS_PER_SQUARE
         let s := sum_next_quarters st.quarters ns QUARTERS_PER_SQUARE
         let s2 := sum_next_quarters st.quarters ns
           (QUARTERS_PER_SQUARE + QUARTERS_PER_SMALL_SQUARE)
         let ext := bridgeDiffPct s.1 s.2 < cfg.bridge_dominance_threshold
         let pick1 := if ext then s2.1 else s.1
         let pick5 := if ext then s2.2 else s.2
         let pickD := if ext then bridgeDiffPct s2.1 s2.2 else bridgeDiffPct s.1 s.2
         if (¬ (s.1 = 0 ∧ s.2 = 0)) ∧
            (if ext
             then cfg.bridge_dominance_threshold ≤ bridgeDiffPct s2.1 s2.2 ∧ s2.1 < s2.2
             else s.1 < s.2)
         then st.bridges ++ [{ beat := ind.beat, quarter_index := ind.quarter_index,
                               row1_sum := pick1, row5_sum := pick5,
                               diff_pct := pickD * 100 }]
         else st.bridges) := by
  unfold bridgeStep confirmOrReject
  dsimp only
  rw [if_neg (by rw [hpos]; simp), if_neg (by rw [hsq]; simp)]
  split_ifs <;> simp_all [not_lt] <;> linarith





/-- C1 witness: the amended lookahead rule applied at the concrete state —
the C1 indicator is rejected because the next-square sums keep Row 1 ahead. -/
theorem C1_lookahead_witness : (bridgeStep defaultConfig st0C1 indC1).bridges = [] := by
  have h := C1_lookahead_from_next_square defaultConfig st0C1 indC1
    (by with_unfolding_all decide) (by with_unfolding_all decide)
  rw [h]
  with_unfolding_all decide



/-- One step preserves the invariant when the current indicator precedes every
remaining one. -/
lemma bridgeStep_scanInv (cfg : AnalysisConfig) (st : BridgeScanState)
    (ind : BridgeIndicator) (rest : List BridgeIndicator)
    (hind : ∀ i ∈ rest, ind.beat < i.beat)
    (h : scanInv st (ind :: rest)) : scanInv (bridgeStep cfg st ind) rest := by
  obtain ⟨hpw, hch, hlq, hlt⟩ := h
  rcases bridgeStep_cases cfg st ind with ⟨hb, hq, -⟩ | ⟨hsq, ⟨r1, r5, d, hb⟩, hq, -⟩
  · refine ⟨hb ▸ hpw, hb ▸ hch, ?_, ?_⟩
    · rw [hq, hb, hlq]
    · intro b hbm i him
      exact hlt b (hb ▸ hbm) i (List.mem_cons_of_mem _ him)
  · refine ⟨?_, ?_, ?_, ?_⟩
    · rw [hb, List.pairwise_append]
      refine ⟨hpw, List.pairwise_singleton _ _, ?_⟩
      intro a ha b hbm
      simp only [List.mem_singleton] at hbm
      subst hbm
      exact hlt a ha ind (List.mem_cons_self _ _)
    · rw [hb, List.chain'_append]
      refine ⟨hch, List.chain'_singleton _, ?_⟩
      intro x hx y hy
      simp only [List.head?_cons, Option.mem_def, Option.some.injEq] at hy
      subst hy
      have hlq' : st.lastQ = some x.quarter_index := by
        rw [hlq]
        cases hgl : st.bridges.getLast? with
        | none => rw [hgl] at hx; simp at hx
        | some y =>
          rw [hgl] at hx
          simp only [Option.mem_def, Option.some.injEq] at hx
          subst hx
          rfl
      rw [hlq'] at hsq
      unfold sameSmallSquare at hsq
      simp only [decide_eq_false_iff_not] at hsq
      exact fun hEq => hsq hEq.symm
    · rw [hq, hb]
      simp
    · intro b hbm i him
      rw [hb] at hbm
      rcases List.mem_append.mp hbm with h' | h'
      · exact hlt b h' i (List.mem_cons_of_mem _ him)
      · simp only [List.mem_singleton] at h'
        subst h'
        exact hind i him

/-- The fold preserves the invariant down to an empty remainder. -/
lemma foldl_scanInv (cfg : AnalysisConfig) :
    ∀ (inds : List BridgeIndicator) (st : BridgeScanState),
      List.Pairwise (fun a b : BridgeIndicator => a.beat < b.beat) inds →
      scanInv st inds → scanInv (inds.foldl (bridgeStep cfg) st) [] := by
  intro inds
  induction inds with
  | nil => intro st _ h; exact h
  | cons ind rest ih =>
    intro st hpw h
    rw [List.foldl_cons]
    have hpc := List.pairwise_cons.mp hpw
    exact ih _ hpc.2 (bridgeStep_scanInv cfg st ind rest hpc.1 h)

/-- C6 counterexample: on the concrete 96-beat input the detector confirms
bridges at beats 24 and 36 — only 12 beats apart — refuting the claim that no
two confirmed bridges lie within 16 beats of each other. -/
theorem C6_counterexample :
    (analyze_bridges indsC6 qtrsC6 defaultConfig).1.map Bridge.beat = [24, 36] ∧
    36 - 24 < 16 := by
  with_unfolding_all decide

/-- C6 (corrected): for time-ordered indicators the confirmed bridges are
strictly increasing in beat index, any indicator whose quarter shares the
ALIGNED small square (block of 4 quarters) of the last confirmed bridge is
skipped, and consecutive confirmed bridges therefore lie in different aligned
small squares — but they can still be closer than 16 beats when the blocks
are adjacent. -/
theorem C6_bridge_monotonicity (indicators : List BridgeIndicator)
    (quarters : List Quarter) (cfg : AnalysisConfig)
    (hmono : List.Pairwise (fun a b : BridgeIndicator => a.beat < b.beat) indicators) :
    List.Pairwise (fun a b : Bridge => a.beat < b.beat)
      (analyze_bridges indicators quarters cfg).1 ∧
    List.Chain' (fun a b : Bridge =>
      a.quarter_index / QUARTERS_PER_SMALL_SQUARE
        ≠ b.quarter_index / QUARTERS_PER_SMALL_SQUARE)
      (analyze_bridges indicators quarters cfg).1 ∧
    (∀ (st : BridgeScanState) (ind : BridgeIndicator),
      sameSmallSquare st.lastQ ind.quarter_index = true →
      (bridgeStep cfg st ind).bridges = st.bridges) := by
  have hinv := foldl_scanInv cfg indicators
    { bridges := [], lastQ := none, quarters := quarters, decisions := [] }
    hmono ⟨List.Pairwise.nil, List.chain'_nil, rfl, by simp⟩
  refine ⟨hinv.1, hinv.2.1, ?_⟩
  intro st ind hsq
  unfold bridgeStep
  dsimp only
  rw [hsq]
  split
  · rfl
  · rfl

/-- C6 witness: the amended monotonicity at the concrete 96-beat input. -/
theorem C6_bridge_monotonicity_witness :
    List.Pairwise (fun a b : Bridge => a.beat < b.beat)
      (analyze_bridges indsC6 qtrsC6 defaultConfig).1 :=
  (C6_bridge_monotonicity indsC6 qtrsC6 defaultConfig (by with_unfolding_all decide)).1

/-- Flipping a position twice is the identity. -/
lemma flipPos_flipPos (p : RowPos) : flipPos (flipPos p) = p := by cases p <;> rfl



/-- One more flip raises the iteration count by one. -/
lemma flipIter_succ (n : ℕ) (p : RowPos) : flipPos (flipIter n p) = flipIter (n + 1) p := by
  unfold flipIter
  by_cases h : n % 2 = 0
  · rw [if_pos h, if_neg (by omega)]
  · rw [if_neg h, if_pos (by omega), flipPos_flipPos]



/-- No bridges, no flips. -/
lemma applyFlipsFrom_nil_bridges : ∀ (j : ℕ) (l : List Quarter),
    applyFlipsFrom [] j l = l := by
  intro j l
  induction l generalizing j with
  | nil => rfl
  | cons q qs ih =>
    unfold applyFlipsFrom
    rw [ih (j + 1)]
    simp [flipIter]

/-- A further swap after quarter `b'.quarter_index` composes with the
accumulated flips to the flip count of `bs ++ [b']`. -/
lemma swapFrom_applyFlipsFrom (bs : List Bridge) (b' : Bridge) :
    ∀ (j : ℕ) (l : List Quarter),
      swapFrom b'.quarter_index j (applyFlipsFrom bs j l)
        = applyFlipsFrom (bs ++ [b']) j l := by
  intro j l
  induction l generalizing j with
  | nil => rfl
  | cons q qs ih =>
    unfold applyFlipsFrom swapFrom
    rw [← ih (j + 1)]
    have hlen : ((bs ++ [b']).filter fun b => decide (b.quarter_index < j)).length
        = (bs.filter fun b => decide (b.quarter_index < j)).length
          + (if b'.quarter_index < j then 1 else 0) := by
      rw [List.filter_append]
      by_cases hj : b'.quarter_index < j
      · simp [hj]
      · simp [hj]
    rw [hlen]
    by_cases hj : b'.quarter_index < j
    · rw [if_pos hj, if_pos hj]
      dsimp only
      rw [flipIter_succ]
    · rw [if_neg hj, if_neg hj]
      norm_num

/-- Along the scan, the quarter table stays the original table with one flip
per already-confirmed bridge in a strictly earlier quarter. -/
lemma foldl_quarters_applyFlips (cfg : AnalysisConfig) :
    ∀ (inds : List BridgeIndicator) (st : BridgeScanState) (qtrs0 : List Quarter),
      st.quarters = applyFlipsFrom st.bridges 0 qtrs0 →
      (inds.foldl (bridgeStep cfg) st).quarters
        = applyFlipsFrom (inds.foldl (bridgeStep cfg) st).bridges 0 qtrs0 := by
  intro inds
  induction inds with
  | nil => intro st qtrs0 h; exact h
  | cons ind rest ih =>
    intro st qtrs0 h
    rw [List.foldl_cons]
    apply ih
    rcases bridgeStep_cases cfg st ind with ⟨hb, -, hqt⟩ | ⟨-, ⟨r1, r5, d, hb⟩, -, hqt⟩
    · rw [hqt, hb, h]
    · rw [hqt, hb, h]
      exact swapFrom_applyFlipsFrom st.bridges
        { beat := ind.beat, quarter_index := ind.quarter_index,
          row1_sum := r1, row5_sum := r5, diff_pct := d } 0 qtrs0



/-- Characterization of the layout fold: after closing the final segment, the
segment start beats are the initial segment start followed by the quarter
starts that hit a bridge beat, and the segment rows alternate from the
initial row, toggling at each hit. -/
lemma layout_fold_char (bb : List ℕ) :
    ∀ (qtrs : List Quarter) (lay : List LayoutSegment) (row seg : ℕ) (t : ℤ),
      ((qtrs.foldl (layoutStep bb) (lay, row, seg)).1
          ++ [({ from_beat := (qtrs.foldl (layoutStep bb) (lay, row, seg)).2.2,
                 to_beat := t,
                 row1_start := (qtrs.foldl (layoutStep bb) (lay, row, seg)).2.1 } :
                LayoutSegment)]).map
          LayoutSegment.from_beat
        = lay.map LayoutSegment.from_beat
            ++ seg :: (qtrs.filter fun q => decide (q.beat_start_global ∈ bb)).map
                Quarter.beat_start_global ∧
      ((qtrs.foldl (layoutStep bb) (lay, row, seg)).1
          ++ [({ from_beat := (qtrs.foldl (layoutStep bb) (lay, row, seg)).2.2,
                 to_beat := t,
                 row1_start := (qtrs.foldl (layoutStep bb) (lay, row, seg)).2.1 } :
                LayoutSegment)]).map
          LayoutSegment.row1_start
        = lay.map LayoutSegment.row1_start
            ++ altRows row
                ((qtrs.filter fun q => decide (q.beat_start_global ∈ bb)).length + 1) := by
  intro qtrs
  induction qtrs with
  | nil =>
    intro lay row seg t
    simp [altRows]
  | cons q qs ih =>
    intro lay row seg t
    rw [List.foldl_cons]
    by_cases hq : q.beat_start_global ∈ bb
    · have hstep : layoutStep bb (lay, row, seg) q
          = (lay ++ [{ from_beat := seg, to_beat := (q.beat_start_global : ℤ) - 1,
                       row1_start := row }],
             if row = 1 then 5 else 1, q.beat_start_global) := by
        unfold layoutStep
        rw [if_pos hq]
      rw [hstep, List.filter_cons_of_pos (by exact decide_eq_true hq)]
      obtain ⟨ihf, ihr⟩ := ih
        (lay ++ [{ from_beat := seg, to_beat := (q.beat_start_global : ℤ) - 1,
                   row1_start := row }])
        (if row = 1 then 5 else 1) q.beat_start_global t
      constructor
      · rw [ihf]
        simp [altRows]
      · rw [ihr]
        simp [altRows]
    · have hstep : layoutStep bb (lay, row, seg) q = (lay, row, seg) := by
        unfold layoutStep
        rw [if_neg hq]
      rw [hstep, List.filter_cons_of_neg (by simp [hq])]
      exact ih lay row seg t

/-- C9 counterexample: on the concrete 64-beat input one bridge is confirmed
at beat 24, the start of quarter 6.  The claim's parity formula says the
bridge's own beat already carries the swapped assignment (Row 5-8), and the
layout indeed opens a row-5 segment at beat 24 — but the quarter table still
labels quarter 6 as `'1-4'`: the swap flips only strictly later quarters, so
the table and the layout disagree at the bridge's own quarter. -/
theorem C9_counterexample :
    (analyze_bridges indsC9 qtrsC9 defaultConfig).1.map Bridge.beat = [24] ∧
    (qtrsC9.getD 6 default).beat_start_global = 24 ∧
    ((analyze_bridges indsC9 qtrsC9 defaultConfig).2.1.getD 6 default).position = RowPos.p14 ∧
    claimRowAssign (analyze_bridges indsC9 qtrsC9 defaultConfig).1 RowPos.p14 24 = RowPos.p58 ∧
    (generate_layout (analyze_bridges indsC9 qtrsC9 defaultConfig).2.1
        (analyze_bridges indsC9 qtrsC9 defaultConfig).1 0 beatsC9 0).map
        LayoutSegment.row1_start = [1, 5] ∧
    (generate_layout (analyze_bridges indsC9 qtrsC9 defaultConfig).2.1
        (analyze_bridges indsC9 qtrsC9 defaultConfig).1 0 beatsC9 0).map
        LayoutSegment.from_beat = [0, 24] := by
  with_unfolding_all decide

/-- C9 (corrected): after bridge detection the quarter table at list position
`j` equals the original labelled position flipped once per confirmed bridge
whose quarter index is STRICTLY less than `j` — the bridge's own quarter keeps
the pre-swap label; the layout, by contrast, opens a new segment AT each
bridge beat with the row toggled, so the emitted segments start at the initial
quarter followed by exactly the quarter starts that carry a bridge, with
alternating rows. -/
theorem C9_swap_parity :
    (∀ (inds : List BridgeIndicator) (qtrs : List Quarter) (cfg : AnalysisConfig),
      (analyze_bridges inds qtrs cfg).2.1
        = applyFlipsFrom (analyze_bridges inds qtrs cfg).1 0 qtrs) ∧
    (∀ (qtrs : List Quarter) (bs : List Bridge) (start_idx : ℕ) (beats : List Beat)
        (off : ℕ) (q0 : Quarter) (rest : List Quarter), qtrs = q0 :: rest →
      (generate_layout qtrs bs start_idx beats off).map LayoutSegment.from_beat
        = q0.beat_start_global
            :: (qtrs.filter fun q => decide (q.beat_start_global ∈ bs.map Bridge.beat)).map
                Quarter.beat_start_global ∧
      (generate_layout qtrs bs start_idx beats off).map LayoutSegment.row1_start
        = altRows (if off = 4 then 5 else 1)
            ((qtrs.filter fun q =>
                decide (q.beat_start_global ∈ bs.map Bridge.beat)).length + 1)) := by
  constructor
  · intro inds qtrs cfg
    exact foldl_quarters_applyFlips cfg inds
      { bridges := [], lastQ := none, quarters := qtrs, decisions := [] } qtrs
      (applyFlipsFrom_nil_bridges 0 qtrs).symm
  · intro qtrs bs start_idx beats off q0 rest h
    subst h
    unfold generate_layout
    dsimp only
    have hchar := layout_fold_char (bs.map Bridge.beat) (q0 :: rest) []
      (if off = 4 then 5 else 1) q0.beat_start_global
      ((min (((q0 :: rest).getLast?.getD q0).beat_start_global + 3) (beats.length - 1) : ℕ) : ℤ)
    simpa using hchar

/-- C9 witness: the amended parity facts at the concrete 64-beat input. -/
theorem C9_swap_parity_witness :
    (analyze_bridges indsC9 qtrsC9 defaultConfig).2.1
      = applyFlipsFrom (analyze_bridges indsC9 qtrsC9 defaultConfig).1 0 qtrsC9 ∧
    (generate_layout qtrsC9 (analyze_bridges indsC9 qtrsC9 defaultConfig).1 0 beatsC9 0).map
        LayoutSegment.row1_start
      = altRows 1 ((qtrsC9.filter fun q =>
          decide (q.beat_start_global
            ∈ (analyze_bridges indsC9 qtrsC9 defaultConfig).1.map Bridge.beat)).length + 1) := by
  constructor
  · exact C9_swap_parity.1 indsC9 qtrsC9 defaultConfig
  · have h := (C9_swap_parity.2 qtrsC9 (analyze_bridges indsC9 qtrsC9 defaultConfig).1 0 beatsC9 0
      (qtrsC9.headD default) qtrsC9.tail (by with_unfolding_all decide)).2
    simpa using h

/-- Inserting into a descending chain keeps it a descending chain. -/
lemma insDesc_head_le (key : ℕ → ℚ) (x y : ℕ) (hx : key x ≤ key y) :
    ∀ ys, (∀ h ∈ ys.head?, key h ≤ key y) →
      ∀ h ∈ (insDesc key x ys).head?, key h ≤ key y := by
  intro ys hys h hh
  cases ys with
  | nil =>
    simp [insDesc] at hh
    subst hh
    exact hx
  | cons z zs =>
    rw [show insDesc key x (z :: zs)
        = if key z < key x then x :: z :: zs else z :: insDesc key x zs from rfl] at hh
    by_cases hz : key z < key x
    · rw [if_pos hz] at hh
      simp at hh
      subst hh
      exact hx
    · rw [if_neg hz] at hh
      simp at hh
      subst hh
      exact hys z (by simp)

/-- `insDesc` preserves the descending chain property. -/
lemma insDesc_chain (key : ℕ → ℚ) (x : ℕ) :
    ∀ l : List ℕ, List.Chain' (fun a b => key b ≤ key a) l →
      List.Chain' (fun a b => key b ≤ key a) (insDesc key x l) := by
  intro l
  induction l with
  | nil => intro _; exact List.chain'_singleton x
  | cons y ys ih =>
    intro h
    rw [show insDesc key x (y :: ys)
        = if key y < key x then x :: y :: ys else y :: insDesc key x ys from rfl]
    by_cases hc : key y < key x
    · rw [if_pos hc]
      exact List.chain'_cons.mpr ⟨le_of_lt hc, h⟩
    · rw [if_neg hc]
      have hcc := List.chain'_cons'.mp (by exact h)
      exact List.chain'_cons'.mpr
        ⟨insDesc_head_le key x y (not_lt.mp hc) ys hcc.1, ih hcc.2⟩

/-- `insDesc` is a permutation of pushing in front. -/
lemma insDesc_perm (key : ℕ → ℚ) (x : ℕ) :
    ∀ l, List.Perm (insDesc key x l) (x :: l) := by
  intro l
  induction l with
  | nil => exact List.Perm.refl _
  | cons y ys ih =>
    rw [show insDesc key x (y :: ys)
        = if key y < key x then x :: y :: ys else y :: insDesc key x ys from rfl]
    by_cases hc : key y < key x
    · rw [if_pos hc]
    · rw [if_neg hc]
      exact (ih.cons y).trans (List.Perm.swap x y ys)

/-- The stable descending sort permutes its input (generalised over the
accumulator of the fold). -/
lemma sortDescStable_perm_aux (key : ℕ → ℚ) :
    ∀ (l acc : List ℕ),
      List.Perm (l.foldl (fun acc x => insDesc key x acc) acc) (acc ++ l) := by
  intro l
  induction l with
  | nil =>
    intro acc
    rw [List.append_nil]
    exact List.Perm.refl acc
  | cons x xs ih =>
    intro acc
    rw [List.foldl_cons]
    exact ((ih (insDesc key x acc)).trans
      (((insDesc_perm key x acc).append_right xs).trans List.perm_middle.symm))

/-- The stable descending sort permutes its input. -/
lemma sortDescStable_perm (key : ℕ → ℚ) (l : List ℕ) :
    List.Perm (sortDescStable key l) l :=
  sortDescStable_perm_aux key l []

/-- The stable descending sort is a descending chain. -/
lemma sortDescStable_chain (key : ℕ → ℚ) (l : List ℕ) :
    List.Chain' (fun a b => key b ≤ key a) (sortDescStable key l) := by
  suffices h : ∀ (l acc : List ℕ), List.Chain' (fun a b => key b ≤ key a) acc →
      List.Chain' (fun a b => key b ≤ key a)
        (l.foldl (fun acc x => insDesc key x acc) acc) by
    exact h l [] List.chain'_nil
  intro l
  induction l with
  | nil => intro acc h; exact h
  | cons x xs ih =>
    intro acc h
    rw [List.foldl_cons]
    exact ih _ (insDesc_chain key x acc h)

/-- The head of a descending chain dominates every member. -/
lemma chain_desc_forall (key : ℕ → ℚ) :
    ∀ (l : List ℕ) (a : ℕ), List.Chain' (fun a b => key b ≤ key a) (a :: l) →
      ∀ x ∈ a :: l, key x ≤ key a := by
  intro l
  induction l with
  | nil =>
    intro a _ x hx
    simp at hx
    subst hx
    exact le_refl _
  | cons b bs ih =>
    intro a h x hx
    have h1 := List.chain'_cons.mp h
    rcases List.mem_cons.mp hx with hx | hx
    · subst hx; exact le_refl _
    · exact le_trans (ih b h1.2 x hx) h1.1

/-- Python `max` over a nonempty list returns a member. -/
lemma pickMaxFirst_mem (key : ℕ → ℚ) (c : ℕ) (cs : List ℕ) :
    pickMaxFirst key (c :: cs) ∈ c :: cs := by
  unfold pickMaxFirst
  have haux : ∀ (l : List ℕ) (acc : ℕ) (sup : List ℕ), acc ∈ sup → (∀ y ∈ l, y ∈ sup) →
      l.foldl (fun best p => if key best < key p then p else best) acc ∈ sup := by
    intro l
    induction l with
    | nil => intro acc sup h _; exact h
    | cons p ps ih =>
      intro acc sup hacc hsub
      rw [List.foldl_cons]
      apply ih
      · by_cases hc : key acc < key p
        · rw [if_pos hc]; exact hsub p (by simp)
        · rw [if_neg hc]; exact hacc
      · intro y hy; exact hsub y (by simp [hy])
  exact haux cs c (c :: cs) (by simp) (fun y hy => by simp [hy])

/-- C5 counterexample: on the concrete scores the residue of highest mean is
0, so the exact match `(0 + 4) % 8 = 4` is an available remaining residue and
the claim demands `peak2 = 4`; but the code keeps the second-highest residue
5 (mean 0.9, against 0.8 at residue 4) because 5 lies within its asymmetric
offset window, and returns `(peak1, peak2) = (0, 5)`. -/
theorem C5_counterexample :
    classify_peaks scoresC5 defaultConfig = (2, 0, 5) ∧
    claimPeak2 0 = 4 ∧
    avgScores scoresC5 0 = 1 ∧
    avgScores scoresC5 5 = 9/10 ∧
    avgScores scoresC5 4 = 4/5 := by
  with_unfolding_all decide

/-- Python `max` over a nonempty list returns a member (nonempty form). -/
lemma pickMaxFirst_mem_of_ne_nil (key : ℕ → ℚ) (l : List ℕ) (h : l ≠ []) :
    pickMaxFirst key l ∈ l := by
  obtain ⟨c, cs, rfl⟩ := List.exists_cons_of_ne_nil h
  exact pickMaxFirst_mem key c cs

/-- C5 (corrected): `peak1` is the residue of maximal mean confidence, and the
second-highest residue is KEPT as `peak2` whenever it lies at offset 0 or +1
(mod 8) from `(peak1 + 4) % 8` — there is no preference for the exact match
and no fallback to the residue one BELOW the expected position; otherwise it
is replaced by the best-scoring residue among those two offsets.  The
returned pair is the increasing ordering of `peak1` and that choice, and is
strictly ordered. -/
theorem C5_peak2_choice (scores : List ℚ) (cfg : AnalysisConfig)
    (p1 p2start : ℕ) (rest : List ℕ)
    (hsort : sortDescStable (avgScores scores) (List.range 8) = p1 :: p2start :: rest) :
    (∀ q < 8, avgScores scores q ≤ avgScores scores p1) ∧
    ((classify_peaks scores cfg).2.1
        = min p1 (if 1 < (p2start + 8 - (p1 + 4) % 8) % 8
                  then pickMaxFirst (avgScores scores)
                        ((List.range 8).filter fun p => decide ((p + 8 - (p1 + 4) % 8) % 8 ≤ 1))
                  else p2start) ∧
     (classify_peaks scores cfg).2.2
        = max p1 (if 1 < (p2start + 8 - (p1 + 4) % 8) % 8
                  then pickMaxFirst (avgScores scores)
                        ((List.range 8).filter fun p => decide ((p + 8 - (p1 + 4) % 8) % 8 ≤ 1))
                  else p2start) ∧
     (classify_peaks scores cfg).2.1 < (classify_peaks scores cfg).2.2) := by
  have hperm := sortDescStable_perm (avgScores scores) (List.range 8)
  have hchain := sortDescStable_chain (avgScores scores) (List.range 8)
  rw [hsort] at hperm hchain
  have hp1lt : p1 < 8 := List.mem_range.mp (hperm.mem_iff.mp (by simp))
  have hnd : (p1 :: p2start :: rest).Nodup := hperm.nodup_iff.mpr (List.nodup_range 8)
  have hne0 : p1 ≠ p2start := by
    intro h
    exact (List.nodup_cons.mp hnd).1 (h ▸ List.mem_cons_self _ _)
  constructor
  · intro q hq
    exact chain_desc_forall (avgScores scores) (p2start :: rest) p1 hchain q
      (hperm.mem_iff.mpr (List.mem_range.mpr hq))
  · have hcne : ((List.range 8).filter fun p => decide ((p + 8 - (p1 + 4) % 8) % 8 ≤ 1)) ≠ [] := by
      refine List.ne_nil_of_mem (a := (p1 + 4) % 8) ?_
      refine List.mem_filter.mpr ⟨List.mem_range.mpr (by omega), ?_⟩
      simp only [decide_eq_true_eq]
      omega
    obtain ⟨c, cs, hc⟩ := List.exists_cons_of_ne_nil hcne
    unfold classify_peaks
    dsimp only
    rw [hsort]
    simp only [List.getD_cons_zero, List.getD_cons_succ]
    rw [hc]
    by_cases hbr : 1 < (p2start + 8 - (p1 + 4) % 8) % 8
    · simp only [if_pos hbr]
      have hmemp : pickMaxFirst (avgScores scores) (c :: cs)
          ∈ ((List.range 8).filter fun p => decide ((p + 8 - (p1 + 4) % 8) % 8 ≤ 1)) := by
        rw [hc]
        exact pickMaxFirst_mem _ c cs
      have hf := List.mem_filter.mp hmemp
      have hlt8 : pickMaxFirst (avgScores scores) (c :: cs) < 8 := List.mem_range.mp hf.1
      have hoff : (pickMaxFirst (avgScores scores) (c :: cs) + 8 - (p1 + 4) % 8) % 8 ≤ 1 := by
        simpa using hf.2
      have hne' : p1 ≠ pickMaxFirst (avgScores scores) (c :: cs) := by omega
      refine ⟨?_, ?_, ?_⟩ <;> split_ifs <;> omega
    · simp only [if_neg hbr]
      refine ⟨?_, ?_, ?_⟩ <;> split_ifs <;> omega

/-- C5 witness: the amended peak choice at the concrete scores, where the
stable descending order of residues is 0, 5, 4, 1, 2, 3, 6, 7. -/
theorem C5_peak2_choice_witness :
    avgScores scoresC5 3 ≤ avgScores scoresC5 0 ∧
    (classify_peaks scoresC5 defaultConfig).2.1 < (classify_peaks scoresC5 defaultConfig).2.2 := by
  have h := C5_peak2_choice scoresC5 defaultConfig 0 5 [4, 1, 2, 3, 6, 7]
    (by with_unfolding_all decide)
  exact ⟨h.1 3 (by omega), h.2.2.2⟩
